import Mathlib

set_option maxHeartbeats 1000000

namespace Indexer

/-- Identifier of a subgraph deployment (common-ts SubgraphDeploymentID).
Two values denote the same deployment iff their canonical 32-byte forms
(`bytes32`, modelled as a natural number) are equal; `ipfsHash` is the
human-readable rendering used for deployment names and log output. -/
structure SubgraphDeploymentID where
  bytes32 : Nat
  ipfsHash : String
deriving DecidableEq, Repr

/-- Market information attached to a network-observed deployment, as read off
an allocation (`allocation.subgraphDeployment` in the source): the deployment
id plus aggregate signal and stake, both non-negative token amounts
(BigNumber in the source, modelled as Nat). -/
structure SubgraphDeployment where
  id : SubgraphDeploymentID
  signalAmount : Nat
  stakedTokens : Nat
deriving DecidableEq, Repr

/-- An active allocation: unique id, the deployment it backs (with market
info), and the epoch at which it was created. -/
structure Allocation where
  id : String
  subgraphDeployment : SubgraphDeployment
  createdAtEpoch : Int
deriving DecidableEq, Repr

/-- MINIMUM_STAKE = parseGRT(10000000): ten million GRT in 18-decimal
base units (agent.ts line 150). -/
def MINIMUM_STAKE : Nat := 10000000 * 10 ^ 18

/-- MINIMUM_SIGNAL = parseGRT(10000000) (agent.ts line 151). -/
def MINIMUM_SIGNAL : Nat := 10000000 * 10 ^ 18

/-- Shared shape of the JS dedup filters at agent.ts lines 351-361:
`array.filter((value, index, array) => array.findIndex(v => key(value) === key(v)) === index)`,
which keeps an element exactly when it sits at the first position whose key
equals its own key (keep-first deduplication by key). -/
def uniqueBy {α κ : Type} [BEq κ] (key : α → κ) (array : List α) : List α :=
  (array.enum.filter fun p => array.findIdx (fun v => key p.2 == key v) == p.1).map Prod.snd

/-- Every element kept by the dedup filter was in the original array. -/
theorem mem_of_mem_uniqueBy {α κ : Type} [BEq κ] (key : α → κ)
    {array : List α} {x : α} (h : x ∈ uniqueBy key array) : x ∈ array := by
  simp only [uniqueBy, List.mem_map] at h
  obtain ⟨p, hp, rfl⟩ := h
  have hmem : p ∈ array.enum := (List.mem_filter.mp hp).1
  have : p.2 ∈ array.enum.map Prod.snd := List.mem_map_of_mem _ hmem
  rwa [List.enum_map_snd] at this

/-- The dedup filter preserves the set of keys present in the array. -/
theorem exists_key_uniqueBy {α κ : Type} [BEq κ] [LawfulBEq κ] (key : α → κ)
    (array : List α) (k : κ) :
    (∃ x ∈ uniqueBy key array, key x = k) ↔ (∃ x ∈ array, key x = k) := by
  constructor
  · rintro ⟨x, hx, rfl⟩
    exact ⟨x, mem_of_mem_uniqueBy key hx, rfl⟩
  · rintro ⟨x, hx, rfl⟩
    have hex : ∃ v ∈ array, (key x == key v) = true := ⟨x, hx, by simp⟩
    have hlt : array.findIdx (fun v => key x == key v) < array.length :=
      List.findIdx_lt_length_of_exists hex
    have hkey := @List.findIdx_getElem _ (fun v => key x == key v) array hlt
    have hkey2 : key (array.get ⟨array.findIdx (fun v => key x == key v), hlt⟩)
        = key x := (eq_of_beq hkey).symm
    refine ⟨array.get ⟨array.findIdx (fun v => key x == key v), hlt⟩, ?_, hkey2⟩
    simp only [uniqueBy, List.mem_map]
    refine ⟨(array.findIdx (fun v => key x == key v),
      array.get ⟨array.findIdx (fun v => key x == key v), hlt⟩), ?_, rfl⟩
    refine List.mem_filter.mpr ⟨?_, ?_⟩
    · exact List.mem_enum_iff_getElem?.mpr (by simp [List.getElem?_eq_getElem hlt])
    · have hfun : (fun v =>
          key (array.get ⟨array.findIdx (fun v => key x == key v), hlt⟩) == key v)
          = (fun v => key x == key v) := by
        funext v
        rw [hkey2]
      simp only [hfun]
      exact beq_iff_eq.mpr rfl

/-- After the dedup filter, the keys of the surviving elements are pairwise
distinct. -/
theorem nodup_keys_uniqueBy {α κ : Type} [BEq κ] [LawfulBEq κ] (key : α → κ)
    (array : List α) : ((uniqueBy key array).map key).Nodup := by
  have henum : array.enum.Nodup :=
    (List.nodup_enum_map_fst array).of_map Prod.fst
  have hfil : (array.enum.filter
      fun p => array.findIdx (fun v => key p.2 == key v) == p.1).Nodup :=
    henum.filter _
  rw [uniqueBy, List.map_map]
  refine hfil.map_on ?_
  intro p hp q hq hkeq
  have hp2 := List.mem_filter.mp hp
  have hq2 := List.mem_filter.mp hq
  have hpk : array.findIdx (fun v => key p.2 == key v) = p.1 := by
    have := hp2.2
    simpa using this
  have hqk : array.findIdx (fun v => key q.2 == key v) = q.1 := by
    have := hq2.2
    simpa using this
  have hkeys : key p.2 = key q.2 := hkeq
  have hidx : p.1 = q.1 := by
    rw [← hpk, ← hqk]
    congr 1
    funext v
    rw [hkeys]
  have hpe : array[p.1]? = some p.2 := List.mem_enum_iff_getElem?.mp hp2.1
  have hqe : array[q.1]? = some q.2 := List.mem_enum_iff_getElem?.mp hq2.1
  have hsnd : p.2 = q.2 := by
    rw [hidx] at hpe
    rw [hpe] at hqe
    exact Option.some.inj hqe
  exact Prod.ext hidx hsnd

/-- On an array whose keys are already pairwise distinct, the dedup filter
is the identity. -/
theorem uniqueBy_eq_self {α κ : Type} [BEq κ] [LawfulBEq κ] (key : α → κ)
    {array : List α} (h : (array.map key).Nodup) : uniqueBy key array = array := by
  rw [uniqueBy]
  have hall : ∀ p ∈ array.enum,
      (array.findIdx (fun v => key p.2 == key v) == p.1) = true := by
    intro p hp
    have hpe : array[p.1]? = some p.2 := List.mem_enum_iff_getElem?.mp hp
    have hlt : p.1 < array.length := by
      by_contra hge
      rw [List.getElem?_eq_none (Nat.le_of_not_lt hge)] at hpe
      exact Option.noConfusion hpe
    have hget : array[p.1] = p.2 := by
      have := List.getElem?_eq_getElem hlt
      rw [this] at hpe
      exact Option.some.inj hpe
    refine beq_iff_eq.mpr ((List.findIdx_eq hlt).mpr ⟨?_, ?_⟩)
    · simp [hget]
    · intro j hj
      have hjlt : j < array.length := Nat.lt_trans hj hlt
      have hjm : j < (array.map key).length := by
        rw [List.length_map]
        exact hjlt
      have hpm : p.1 < (array.map key).length := by
        rw [List.length_map]
        exact hlt
      have hkeys : key array[j] ≠ key array[p.1] := by
        intro hcontra
        have heq : (array.map key).get ⟨j, hjm⟩ = (array.map key).get ⟨p.1, hpm⟩ := by
          rw [List.get_eq_getElem, List.get_eq_getElem, List.getElem_map,
            List.getElem_map]
          exact hcontra
        rw [List.get_eq_getElem, List.get_eq_getElem] at heq
        exact Nat.ne_of_lt hj ((List.Nodup.getElem_inj_iff h).mp heq)
      simp only [hget] at hkeys
      simpa using fun hcontra => hkeys (by rw [hcontra])
  rw [List.filter_eq_self.mpr hall, List.enum_map_snd]

/-- Deployments to deploy before deduplication (agent.ts lines 309-315):
network-desired deployments with no locally indexed deployment of the same
`bytes32`. -/
def toDeployRaw (networkDeployments indexerDeployments : List SubgraphDeploymentID) :
    List SubgraphDeploymentID :=
  networkDeployments.filter fun networkDeployment =>
    ! indexerDeployments.any fun indexerDeployment =>
      networkDeployment.bytes32 == indexerDeployment.bytes32

/-- Deployments to remove before deduplication (agent.ts lines 316-322):
locally indexed deployments with no network-desired deployment of the same
`bytes32`. -/
def toRemoveRaw (networkDeployments indexerDeployments : List SubgraphDeploymentID) :
    List SubgraphDeploymentID :=
  indexerDeployments.filter fun indexerDeployment =>
    ! networkDeployments.any fun networkDeployment =>
      indexerDeployment.bytes32 == networkDeployment.bytes32

/-- settleAllocationsBeforeEpoch = epoch - max(1, maxEpochsPerAllocation) + 1
(agent.ts lines 324-325). -/
def settleAllocationsBeforeEpoch (epoch maxEpochsPerAllocation : Int) : Int :=
  epoch - max 1 maxEpochsPerAllocation + 1

/-- Settlement trigger for one allocation (agent.ts lines 332-339): the
allocation is old, or its deployment has both signal below MINIMUM_SIGNAL and
stake below MINIMUM_STAKE. -/
def shouldSettle (epoch maxEpochsPerAllocation : Int) (allocation : Allocation) : Bool :=
  decide (allocation.createdAtEpoch
      < settleAllocationsBeforeEpoch epoch maxEpochsPerAllocation)
    || (decide (allocation.subgraphDeployment.signalAmount < MINIMUM_SIGNAL)
      && decide (allocation.subgraphDeployment.stakedTokens < MINIMUM_STAKE))

/-- Allocations to settle before deduplication (agent.ts lines 332-339). -/
def toSettleRaw (epoch maxEpochsPerAllocation : Int) (allocations : List Allocation) :
    List Allocation :=
  allocations.filter (shouldSettle epoch maxEpochsPerAllocation)

/-- Deployments to allocate to before deduplication and before the
self-exclusion step (agent.ts lines 342-349): network-desired deployments
with no active allocation whose deployment has the same `bytes32`. -/
def toAllocateRaw (networkDeployments : List SubgraphDeploymentID)
    (allocations : List Allocation) : List SubgraphDeploymentID :=
  networkDeployments.filter fun networkDeployment =>
    ! allocations.any fun allocation =>
      allocation.subgraphDeployment.id.bytes32 == networkDeployment.bytes32

/-- The four-set reconciliation plan (agent.ts lines 308-383). -/
structure Plan where
  toDeploy : List SubgraphDeploymentID
  toRemove : List SubgraphDeploymentID
  toAllocate : List SubgraphDeploymentID
  toSettle : List Allocation
deriving DecidableEq, Repr

/-- The pure plan computation of Agent.resolve (agent.ts lines 308-383):
set differences, settlement filter, allocation filter, deduplication of all
four lists by their identity key (lines 363-367), then force-inclusion of the
self-tracking network subgraph deployment into toDeploy when absent
(lines 372-379) and its exclusion from toAllocate (lines 380-383). -/
def resolvePlan (epoch maxEpochsPerAllocation : Int)
    (networkSubgraphDeployment : SubgraphDeploymentID)
    (networkDeployments indexerDeployments : List SubgraphDeploymentID)
    (allocations : List Allocation) : Plan :=
  let toDeploy := uniqueBy SubgraphDeploymentID.bytes32
    (toDeployRaw networkDeployments indexerDeployments)
  let toRemove := uniqueBy SubgraphDeploymentID.bytes32
    (toRemoveRaw networkDeployments indexerDeployments)
  let toAllocate := uniqueBy SubgraphDeploymentID.bytes32
    (toAllocateRaw networkDeployments allocations)
  let toSettle := uniqueBy Allocation.id
    (toSettleRaw epoch maxEpochsPerAllocation allocations)
  let toDeploy :=
    if toDeploy.any fun deployment =>
        deployment.bytes32 == networkSubgraphDeployment.bytes32 then
      toDeploy
    else
      toDeploy ++ [networkSubgraphDeployment]
  let toAllocate := toAllocate.filter fun deployment =>
    ! (deployment.bytes32 == networkSubgraphDeployment.bytes32)
  { toDeploy := toDeploy, toRemove := toRemove,
    toAllocate := toAllocate, toSettle := toSettle }

/-- Key-level characterization of the raw deploy difference: some deployment
with canonical bytes k survives the filter iff k occurs among the
network-desired deployments and not among the locally indexed ones. -/
theorem exists_key_toDeployRaw (networkDeployments indexerDeployments : List SubgraphDeploymentID)
    (k : Nat) :
    (∃ x ∈ toDeployRaw networkDeployments indexerDeployments, x.bytes32 = k) ↔
      ((∃ n ∈ networkDeployments, n.bytes32 = k) ∧
        ¬ ∃ l ∈ indexerDeployments, l.bytes32 = k) := by
  simp only [toDeployRaw, List.mem_filter, Bool.not_eq_true', List.any_eq_false,
    beq_iff_eq]
  constructor
  · rintro ⟨x, ⟨hxN, hxL⟩, rfl⟩
    exact ⟨⟨x, hxN, rfl⟩, fun ⟨l, hl, hlk⟩ => hxL l hl hlk.symm⟩
  · rintro ⟨⟨n, hnN, rfl⟩, hnotL⟩
    exact ⟨n, ⟨hnN, fun l hl hc => hnotL ⟨l, hl, hc.symm⟩⟩, rfl⟩

/-- Key-level characterization of the raw remove difference. -/
theorem exists_key_toRemoveRaw (networkDeployments indexerDeployments : List SubgraphDeploymentID)
    (k : Nat) :
    (∃ x ∈ toRemoveRaw networkDeployments indexerDeployments, x.bytes32 = k) ↔
      ((∃ l ∈ indexerDeployments, l.bytes32 = k) ∧
        ¬ ∃ n ∈ networkDeployments, n.bytes32 = k) := by
  simp only [toRemoveRaw, List.mem_filter, Bool.not_eq_true', List.any_eq_false,
    beq_iff_eq]
  constructor
  · rintro ⟨x, ⟨hxL, hxN⟩, rfl⟩
    exact ⟨⟨x, hxL, rfl⟩, fun ⟨n, hn, hnk⟩ => hxN n hn hnk.symm⟩
  · rintro ⟨⟨l, hlL, rfl⟩, hnotN⟩
    exact ⟨l, ⟨hlL, fun n hn hc => hnotN ⟨n, hn, hc.symm⟩⟩, rfl⟩

/-- Key-level characterization of the raw allocate filter. -/
theorem exists_key_toAllocateRaw (networkDeployments : List SubgraphDeploymentID)
    (allocations : List Allocation) (k : Nat) :
    (∃ x ∈ toAllocateRaw networkDeployments allocations, x.bytes32 = k) ↔
      ((∃ n ∈ networkDeployments, n.bytes32 = k) ∧
        ¬ ∃ a ∈ allocations, a.subgraphDeployment.id.bytes32 = k) := by
  simp only [toAllocateRaw, List.mem_filter, Bool.not_eq_true', List.any_eq_false,
    beq_iff_eq]
  constructor
  · rintro ⟨x, ⟨hxN, hxA⟩, rfl⟩
    exact ⟨⟨x, hxN, rfl⟩, fun ⟨a, ha, hak⟩ => hxA a ha hak⟩
  · rintro ⟨⟨n, hnN, rfl⟩, hnotA⟩
    exact ⟨n, ⟨hnN, fun a ha hc => hnotA ⟨a, ha, hc⟩⟩, rfl⟩

/-- C1: an allocation from the active-allocation snapshot (whose ids, per the
data model, are unique) is in the computed toSettle set iff its creation epoch
is strictly below epoch - max(1, maxEpochsPerAllocation) + 1, or its backing
deployment has signal strictly below MINIMUM_SIGNAL and stake strictly below
MINIMUM_STAKE simultaneously; either trigger alone suffices. -/
theorem mem_toSettle_iff (epoch maxEpochsPerAllocation : Int)
    (networkSubgraphDeployment : SubgraphDeploymentID)
    (networkDeployments indexerDeployments : List SubgraphDeploymentID)
    (allocations : List Allocation) (allocation : Allocation)
    (hids : (allocations.map Allocation.id).Nodup)
    (hmem : allocation ∈ allocations) :
    allocation ∈ (resolvePlan epoch maxEpochsPerAllocation networkSubgraphDeployment
        networkDeployments indexerDeployments allocations).toSettle ↔
      (allocation.createdAtEpoch < epoch - max 1 maxEpochsPerAllocation + 1 ∨
        (allocation.subgraphDeployment.signalAmount < MINIMUM_SIGNAL ∧
          allocation.subgraphDeployment.stakedTokens < MINIMUM_STAKE)) := by
  have hnodup : ((toSettleRaw epoch maxEpochsPerAllocation allocations).map
      Allocation.id).Nodup :=
    hids.sublist ((List.filter_sublist allocations).map Allocation.id)
  show allocation ∈ uniqueBy Allocation.id
    (toSettleRaw epoch maxEpochsPerAllocation allocations) ↔ _
  rw [uniqueBy_eq_self Allocation.id hnodup]
  simp [toSettleRaw, List.mem_filter, shouldSettle, settleAllocationsBeforeEpoch, hmem]

/-- C1 witness: with epoch 100 and maxEpochsPerAllocation 28 an allocation
created at epoch 50 is settled (50 < 73). -/
theorem mem_toSettle_iff_witness :
    (⟨"0xalloc1", ⟨⟨1, "QmOne"⟩, 0, 0⟩, 50⟩ : Allocation) ∈
      (resolvePlan 100 28 ⟨0, "QmSelf"⟩ [] []
        [⟨"0xalloc1", ⟨⟨1, "QmOne"⟩, 0, 0⟩, 50⟩]).toSettle :=
  (mem_toSettle_iff 100 28 ⟨0, "QmSelf"⟩ [] []
      [⟨"0xalloc1", ⟨⟨1, "QmOne"⟩, 0, 0⟩, 50⟩] ⟨"0xalloc1", ⟨⟨1, "QmOne"⟩, 0, 0⟩, 50⟩
      (by decide) (by decide)).mpr
    (Or.inl (by decide))

/-- C2: whatever the inputs, the self-tracking network subgraph deployment is
present in toDeploy (by canonical bytes) and absent from toAllocate. -/
theorem self_in_toDeploy_not_in_toAllocate (epoch maxEpochsPerAllocation : Int)
    (networkSubgraphDeployment : SubgraphDeploymentID)
    (networkDeployments indexerDeployments : List SubgraphDeploymentID)
    (allocations : List Allocation) :
    (∃ d ∈ (resolvePlan epoch maxEpochsPerAllocation networkSubgraphDeployment
        networkDeployments indexerDeployments allocations).toDeploy,
      d.bytes32 = networkSubgraphDeployment.bytes32) ∧
    ∀ d ∈ (resolvePlan epoch maxEpochsPerAllocation networkSubgraphDeployment
        networkDeployments indexerDeployments allocations).toAllocate,
      d.bytes32 ≠ networkSubgraphDeployment.bytes32 := by
  constructor
  · show ∃ d ∈ (if (uniqueBy SubgraphDeploymentID.bytes32
        (toDeployRaw networkDeployments indexerDeployments)).any fun deployment =>
          deployment.bytes32 == networkSubgraphDeployment.bytes32 then
        uniqueBy SubgraphDeploymentID.bytes32
          (toDeployRaw networkDeployments indexerDeployments)
      else
        uniqueBy SubgraphDeploymentID.bytes32
          (toDeployRaw networkDeployments indexerDeployments)
          ++ [networkSubgraphDeployment]),
      d.bytes32 = networkSubgraphDeployment.bytes32
    by_cases hany : (uniqueBy SubgraphDeploymentID.bytes32
        (toDeployRaw networkDeployments indexerDeployments)).any fun deployment =>
          deployment.bytes32 == networkSubgraphDeployment.bytes32
    · rw [if_pos hany]
      obtain ⟨d, hd, hdk⟩ := List.any_eq_true.mp hany
      exact ⟨d, hd, beq_iff_eq.mp hdk⟩
    · rw [if_neg hany]
      exact ⟨networkSubgraphDeployment, List.mem_append_right _ (by simp), rfl⟩
  · intro d hd
    have : d ∈ (uniqueBy SubgraphDeploymentID.bytes32
        (toAllocateRaw networkDeployments allocations)).filter fun deployment =>
          ! (deployment.bytes32 == networkSubgraphDeployment.bytes32) := hd
    have hcond := (List.mem_filter.mp this).2
    simpa using hcond

/-- C2 witness: on a concrete snapshot that nowhere mentions the self-tracking
deployment, it is still deployed and never allocated to. -/
theorem self_in_toDeploy_not_in_toAllocate_witness :
    (∃ d ∈ (resolvePlan 100 28 ⟨0, "QmSelf"⟩ [⟨1, "QmOne"⟩] [] []).toDeploy,
      d.bytes32 = (0 : Nat)) ∧
    ∀ d ∈ (resolvePlan 100 28 ⟨0, "QmSelf"⟩ [⟨1, "QmOne"⟩] [] []).toAllocate,
      d.bytes32 ≠ (0 : Nat) :=
  self_in_toDeploy_not_in_toAllocate 100 28 ⟨0, "QmSelf"⟩ [⟨1, "QmOne"⟩] [] []

/-- C3: when the network-desired and locally indexed snapshots are disjoint
by canonical bytes and the network-desired snapshot contains the self-tracking
deployment, toDeploy holds exactly the network-minus-local keys, toRemove
exactly the local-minus-network keys, and the two are disjoint. -/
theorem plan_set_difference (epoch maxEpochsPerAllocation : Int)
    (networkSubgraphDeployment : SubgraphDeploymentID)
    (networkDeployments indexerDeployments : List SubgraphDeploymentID)
    (allocations : List Allocation)
    (hdisj : ∀ n ∈ networkDeployments, ∀ l ∈ indexerDeployments,
      n.bytes32 ≠ l.bytes32)
    (hself : ∃ n ∈ networkDeployments,
      n.bytes32 = networkSubgraphDeployment.bytes32) :
    (∀ k : Nat,
      ((∃ d ∈ (resolvePlan epoch maxEpochsPerAllocation networkSubgraphDeployment
          networkDeployments indexerDeployments allocations).toDeploy,
        d.bytes32 = k) ↔
        ((∃ n ∈ networkDeployments, n.bytes32 = k) ∧
          ¬ ∃ l ∈ indexerDeployments, l.bytes32 = k))) ∧
    (∀ k : Nat,
      ((∃ d ∈ (resolvePlan epoch maxEpochsPerAllocation networkSubgraphDeployment
          networkDeployments indexerDeployments allocations).toRemove,
        d.bytes32 = k) ↔
        ((∃ l ∈ indexerDeployments, l.bytes32 = k) ∧
          ¬ ∃ n ∈ networkDeployments, n.bytes32 = k))) ∧
    (∀ d ∈ (resolvePlan epoch maxEpochsPerAllocation networkSubgraphDeployment
        networkDeployments indexerDeployments allocations).toDeploy,
      ∀ e ∈ (resolvePlan epoch maxEpochsPerAllocation networkSubgraphDeployment
        networkDeployments indexerDeployments allocations).toRemove,
      d.bytes32 ≠ e.bytes32) := by
  have hnotL : ¬ ∃ l ∈ indexerDeployments,
      l.bytes32 = networkSubgraphDeployment.bytes32 := by
    rintro ⟨l, hl, hlk⟩
    obtain ⟨n, hn, hnk⟩ := hself
    exact hdisj n hn l hl (by rw [hnk, hlk])
  have hkeyuniq : ∃ x ∈ uniqueBy SubgraphDeploymentID.bytes32
      (toDeployRaw networkDeployments indexerDeployments),
      x.bytes32 = networkSubgraphDeployment.bytes32 :=
    (exists_key_uniqueBy SubgraphDeploymentID.bytes32 _ _).mpr
      ((exists_key_toDeployRaw _ _ _).mpr ⟨hself, hnotL⟩)
  have hany : ((uniqueBy SubgraphDeploymentID.bytes32
      (toDeployRaw networkDeployments indexerDeployments)).any
      fun deployment =>
        deployment.bytes32 == networkSubgraphDeployment.bytes32) = true := by
    obtain ⟨x, hx, hxk⟩ := hkeyuniq
    exact List.any_eq_true.mpr ⟨x, hx, beq_iff_eq.mpr hxk⟩
  have hdeployEq : (resolvePlan epoch maxEpochsPerAllocation
      networkSubgraphDeployment networkDeployments indexerDeployments
      allocations).toDeploy
      = uniqueBy SubgraphDeploymentID.bytes32
        (toDeployRaw networkDeployments indexerDeployments) := by
    show (if ((uniqueBy SubgraphDeploymentID.bytes32
        (toDeployRaw networkDeployments indexerDeployments)).any
        fun deployment =>
          deployment.bytes32 == networkSubgraphDeployment.bytes32) = true then
        uniqueBy SubgraphDeploymentID.bytes32
          (toDeployRaw networkDeployments indexerDeployments)
      else
        uniqueBy SubgraphDeploymentID.bytes32
          (toDeployRaw networkDeployments indexerDeployments)
          ++ [networkSubgraphDeployment]) = _
    rw [if_pos hany]
  have hDeployChar : ∀ k : Nat,
      ((∃ d ∈ (resolvePlan epoch maxEpochsPerAllocation networkSubgraphDeployment
          networkDeployments indexerDeployments allocations).toDeploy,
        d.bytes32 = k) ↔
        ((∃ n ∈ networkDeployments, n.bytes32 = k) ∧
          ¬ ∃ l ∈ indexerDeployments, l.bytes32 = k)) := by
    intro k
    rw [hdeployEq]
    exact (exists_key_uniqueBy SubgraphDeploymentID.bytes32 _ _).trans
      (exists_key_toDeployRaw _ _ _)
  have hRemoveChar : ∀ k : Nat,
      ((∃ d ∈ (resolvePlan epoch maxEpochsPerAllocation networkSubgraphDeployment
          networkDeployments indexerDeployments allocations).toRemove,
        d.bytes32 = k) ↔
        ((∃ l ∈ indexerDeployments, l.bytes32 = k) ∧
          ¬ ∃ n ∈ networkDeployments, n.bytes32 = k)) := by
    intro k
    exact (exists_key_uniqueBy SubgraphDeploymentID.bytes32 _ _).trans
      (exists_key_toRemoveRaw _ _ _)
  refine ⟨hDeployChar, hRemoveChar, ?_⟩
  intro d hd e he heq
  have h1 := (hDeployChar d.bytes32).mp ⟨d, hd, rfl⟩
  have h2 := (hRemoveChar d.bytes32).mp ⟨e, he, heq.symm⟩
  exact h2.2 h1.1

/-- C3 witness: with network-desired deployments 1 and 0 (self) and local
deployment 2, key 1 is deployed and key 2 removed, and the two sets are
disjoint. -/
theorem plan_set_difference_witness :
    (∃ d ∈ (resolvePlan 100 28 ⟨0, "QmSelf"⟩ [⟨1, "QmOne"⟩, ⟨0, "QmSelf"⟩]
        [⟨2, "QmTwo"⟩] []).toDeploy, d.bytes32 = 1) ∧
    (∃ d ∈ (resolvePlan 100 28 ⟨0, "QmSelf"⟩ [⟨1, "QmOne"⟩, ⟨0, "QmSelf"⟩]
        [⟨2, "QmTwo"⟩] []).toRemove, d.bytes32 = 2) := by
  have h := plan_set_difference 100 28 ⟨0, "QmSelf"⟩ [⟨1, "QmOne"⟩, ⟨0, "QmSelf"⟩]
    [⟨2, "QmTwo"⟩] [] (by decide) (by decide)
  exact ⟨(h.1 1).mpr (by decide), (h.2.1 2).mpr (by decide)⟩

/-- C4: a canonical key occurs in toAllocate iff it occurs among the
network-desired deployments, no active allocation backs a deployment with
that key, and it is not the self-tracking deployment's key. -/
theorem toAllocate_characterization (epoch maxEpochsPerAllocation : Int)
    (networkSubgraphDeployment : SubgraphDeploymentID)
    (networkDeployments indexerDeployments : List SubgraphDeploymentID)
    (allocations : List Allocation) (k : Nat) :
    (∃ d ∈ (resolvePlan epoch maxEpochsPerAllocation networkSubgraphDeployment
        networkDeployments indexerDeployments allocations).toAllocate,
      d.bytes32 = k) ↔
      ((∃ n ∈ networkDeployments, n.bytes32 = k) ∧
        (¬ ∃ a ∈ allocations, a.subgraphDeployment.id.bytes32 = k) ∧
        k ≠ networkSubgraphDeployment.bytes32) := by
  have hEq : (resolvePlan epoch maxEpochsPerAllocation networkSubgraphDeployment
      networkDeployments indexerDeployments allocations).toAllocate
      = (uniqueBy SubgraphDeploymentID.bytes32
        (toAllocateRaw networkDeployments allocations)).filter fun deployment =>
          ! (deployment.bytes32 == networkSubgraphDeployment.bytes32) := rfl
  rw [hEq]
  constructor
  · rintro ⟨d, hd, rfl⟩
    obtain ⟨hd1, hd2⟩ := List.mem_filter.mp hd
    have hne : d.bytes32 ≠ networkSubgraphDeployment.bytes32 := by simpa using hd2
    have := (exists_key_uniqueBy SubgraphDeploymentID.bytes32 _ _).mp ⟨d, hd1, rfl⟩
    have hraw := (exists_key_toAllocateRaw _ _ _).mp this
    exact ⟨hraw.1, hraw.2, hne⟩
  · rintro ⟨hN, hA, hk⟩
    obtain ⟨x, hx, hxk⟩ := (exists_key_uniqueBy SubgraphDeploymentID.bytes32 _ _).mpr
      ((exists_key_toAllocateRaw _ _ _).mpr ⟨hN, hA⟩)
    refine ⟨x, List.mem_filter.mpr ⟨hx, ?_⟩, hxk⟩
    simp [hxk, hk]

/-- C4 witness: key 1 is allocatable (network-desired, unallocated, not self)
while key 0 (self) is not. -/
theorem toAllocate_characterization_witness :
    (∃ d ∈ (resolvePlan 100 28 ⟨0, "QmSelf"⟩ [⟨1, "QmOne"⟩, ⟨0, "QmSelf"⟩]
        [] []).toAllocate, d.bytes32 = 1) ∧
    ¬ (∃ d ∈ (resolvePlan 100 28 ⟨0, "QmSelf"⟩ [⟨1, "QmOne"⟩, ⟨0, "QmSelf"⟩]
        [] []).toAllocate, d.bytes32 = 0) := by
  constructor
  · exact (toAllocate_characterization 100 28 ⟨0, "QmSelf"⟩
      [⟨1, "QmOne"⟩, ⟨0, "QmSelf"⟩] [] [] 1).mpr (by decide)
  · intro hcontra
    have := (toAllocate_characterization 100 28 ⟨0, "QmSelf"⟩
      [⟨1, "QmOne"⟩, ⟨0, "QmSelf"⟩] [] [] 0).mp hcontra
    exact this.2.2 rfl

/-- C5: after the plan computation none of the four output lists contains two
entries with the same identity key, whatever duplicates the inputs contain;
in particular the force-inclusion of the self-tracking deployment never
introduces a duplicate into toDeploy. -/
theorem plan_no_duplicates (epoch maxEpochsPerAllocation : Int)
    (networkSubgraphDeployment : SubgraphDeploymentID)
    (networkDeployments indexerDeployments : List SubgraphDeploymentID)
    (allocations : List Allocation) :
    ((resolvePlan epoch maxEpochsPerAllocation networkSubgraphDeployment
        networkDeployments indexerDeployments allocations).toDeploy.map
      SubgraphDeploymentID.bytes32).Nodup ∧
    ((resolvePlan epoch maxEpochsPerAllocation networkSubgraphDeployment
        networkDeployments indexerDeployments allocations).toRemove.map
      SubgraphDeploymentID.bytes32).Nodup ∧
    ((resolvePlan epoch maxEpochsPerAllocation networkSubgraphDeployment
        networkDeployments indexerDeployments allocations).toAllocate.map
      SubgraphDeploymentID.bytes32).Nodup ∧
    ((resolvePlan epoch maxEpochsPerAllocation networkSubgraphDeployment
        networkDeployments indexerDeployments allocations).toSettle.map
      Allocation.id).Nodup := by
  refine ⟨?_, ?_, ?_, ?_⟩
  · show ((if ((uniqueBy SubgraphDeploymentID.bytes32
        (toDeployRaw networkDeployments indexerDeployments)).any
        fun deployment =>
          deployment.bytes32 == networkSubgraphDeployment.bytes32) = true then
        uniqueBy SubgraphDeploymentID.bytes32
          (toDeployRaw networkDeployments indexerDeployments)
      else
        uniqueBy SubgraphDeploymentID.bytes32
          (toDeployRaw networkDeployments indexerDeployments)
          ++ [networkSubgraphDeployment]).map SubgraphDeploymentID.bytes32).Nodup
    by_cases hany : ((uniqueBy SubgraphDeploymentID.bytes32
        (toDeployRaw networkDeployments indexerDeployments)).any
        fun deployment =>
          deployment.bytes32 == networkSubgraphDeployment.bytes32) = true
    · rw [if_pos hany]
      exact nodup_keys_uniqueBy _ _
    · rw [if_neg hany, List.map_append]
      rw [List.nodup_append]
      refine ⟨nodup_keys_uniqueBy _ _, List.nodup_singleton _, ?_⟩
      intro a ha hb
      have hbk : a = networkSubgraphDeployment.bytes32 := by simpa using hb
      obtain ⟨d, hd, hdk⟩ := List.mem_map.mp ha
      have hfalse : ((uniqueBy SubgraphDeploymentID.bytes32
          (toDeployRaw networkDeployments indexerDeployments)).any
          fun deployment =>
            deployment.bytes32 == networkSubgraphDeployment.bytes32) = false := by
        simpa using hany
      have := List.any_eq_false.mp hfalse d hd
      rw [hdk, hbk] at this
      simp at this
  · show ((uniqueBy SubgraphDeploymentID.bytes32
      (toRemoveRaw networkDeployments indexerDeployments)).map
      SubgraphDeploymentID.bytes32).Nodup
    exact nodup_keys_uniqueBy _ _
  · have hsub : List.Sublist
        (((uniqueBy SubgraphDeploymentID.bytes32
          (toAllocateRaw networkDeployments allocations)).filter fun deployment =>
            ! (deployment.bytes32 == networkSubgraphDeployment.bytes32)).map
          SubgraphDeploymentID.bytes32)
        ((uniqueBy SubgraphDeploymentID.bytes32
          (toAllocateRaw networkDeployments allocations)).map
          SubgraphDeploymentID.bytes32) :=
      (List.filter_sublist _).map _
    show (((uniqueBy SubgraphDeploymentID.bytes32
        (toAllocateRaw networkDeployments allocations)).filter fun deployment =>
          ! (deployment.bytes32 == networkSubgraphDeployment.bytes32)).map
        SubgraphDeploymentID.bytes32).Nodup
    exact (nodup_keys_uniqueBy _ _).sublist hsub
  · show ((uniqueBy Allocation.id
      (toSettleRaw epoch maxEpochsPerAllocation allocations)).map
      Allocation.id).Nodup
    exact nodup_keys_uniqueBy _ _

/-- C5 witness: the duplicate-free outputs on inputs that mention the same
deployment and the same allocation twice. -/
theorem plan_no_duplicates_witness :
    ((resolvePlan 100 28 ⟨0, "QmSelf"⟩ [⟨1, "QmOne"⟩, ⟨1, "QmOne"⟩, ⟨0, "QmSelf"⟩]
        [⟨2, "QmTwo"⟩, ⟨2, "QmTwo"⟩]
        [⟨"0xalloc1", ⟨⟨1, "QmOne"⟩, 0, 0⟩, 50⟩,
          ⟨"0xalloc1", ⟨⟨1, "QmOne"⟩, 0, 0⟩, 50⟩]).toDeploy.map
      SubgraphDeploymentID.bytes32).Nodup ∧
    ((resolvePlan 100 28 ⟨0, "QmSelf"⟩ [⟨1, "QmOne"⟩, ⟨1, "QmOne"⟩, ⟨0, "QmSelf"⟩]
        [⟨2, "QmTwo"⟩, ⟨2, "QmTwo"⟩]
        [⟨"0xalloc1", ⟨⟨1, "QmOne"⟩, 0, 0⟩, 50⟩,
          ⟨"0xalloc1", ⟨⟨1, "QmOne"⟩, 0, 0⟩, 50⟩]).toSettle.map
      Allocation.id).Nodup := by
  have h := plan_no_duplicates 100 28 ⟨0, "QmSelf"⟩
    [⟨1, "QmOne"⟩, ⟨1, "QmOne"⟩, ⟨0, "QmSelf"⟩] [⟨2, "QmTwo"⟩, ⟨2, "QmTwo"⟩]
    [⟨"0xalloc1", ⟨⟨1, "QmOne"⟩, 0, 0⟩, 50⟩,
      ⟨"0xalloc1", ⟨⟨1, "QmOne"⟩, 0, 0⟩, 50⟩]
  exact ⟨h.1, h.2.2.2⟩

/-- One steady-state tick's plan as built by Agent.start (agent.ts lines
254-278): the gathered network-desired list is extended with the
self-tracking network subgraph deployment (`networkSubgraphs.push(...)`,
lines 269-270) before Agent.resolve computes the plan. -/
def tickResolvePlan (epoch maxEpochsPerAllocation : Int)
    (networkSubgraphDeployment : SubgraphDeploymentID)
    (networkSubgraphs indexerDeployments : List SubgraphDeploymentID)
    (allocations : List Allocation) : Plan :=
  resolvePlan epoch maxEpochsPerAllocation networkSubgraphDeployment
    (networkSubgraphs ++ [networkSubgraphDeployment]) indexerDeployments
    allocations

/-- C10: because every tick appends the self-tracking deployment to the
network-desired list before computing the plan, no entry of toRemove ever
carries the self-tracking deployment's canonical bytes. -/
theorem self_never_removed (epoch maxEpochsPerAllocation : Int)
    (networkSubgraphDeployment : SubgraphDeploymentID)
    (networkSubgraphs indexerDeployments : List SubgraphDeploymentID)
    (allocations : List Allocation) :
    ∀ d ∈ (tickResolvePlan epoch maxEpochsPerAllocation
        networkSubgraphDeployment networkSubgraphs indexerDeployments
        allocations).toRemove,
      d.bytes32 ≠ networkSubgraphDeployment.bytes32 := by
  intro d hd hcontra
  have hraw : d ∈ toRemoveRaw
      (networkSubgraphs ++ [networkSubgraphDeployment]) indexerDeployments :=
    mem_of_mem_uniqueBy _ hd
  rw [toRemoveRaw, List.mem_filter] at hraw
  obtain ⟨-, hcond⟩ := hraw
  have hmatch : ((networkSubgraphs ++ [networkSubgraphDeployment]).any
      fun networkDeployment => d.bytes32 == networkDeployment.bytes32) = true :=
    List.any_eq_true.mpr ⟨networkSubgraphDeployment,
      List.mem_append_right _ (by simp), beq_iff_eq.mpr hcontra⟩
  rw [hmatch] at hcond
  simp at hcond

/-- C10 witness: a locally indexed copy of the self-tracking deployment is
not removed even when the gathered network-desired list is empty; the
unrelated local deployment 1 is removed and indeed differs from self. -/
theorem self_never_removed_witness :
    (⟨1, "QmOne"⟩ : SubgraphDeploymentID) ∈ (tickResolvePlan 100 28 ⟨0, "QmSelf"⟩
      [] [⟨0, "QmSelf"⟩, ⟨1, "QmOne"⟩] []).toRemove ∧
    (⟨1, "QmOne"⟩ : SubgraphDeploymentID).bytes32
      ≠ (⟨0, "QmSelf"⟩ : SubgraphDeploymentID).bytes32 :=
  ⟨by decide, self_never_removed 100 28 ⟨0, "QmSelf"⟩ []
    [⟨0, "QmSelf"⟩, ⟨1, "QmOne"⟩] [] ⟨1, "QmOne"⟩ (by decide)⟩

/-- Severity of a log entry emitted by the agent. -/
inductive LogLevel where
  | info
  | warn
deriving DecidableEq, Repr

/-- One log entry: severity, message, and the optional error message carried
in the attached metadata object. -/
structure LogEntry where
  level : LogLevel
  message : String
  errorMessage : Option String
deriving DecidableEq, Repr

/-- One iteration of the steady-state reconciliation loop body (agent.ts
lines 242-286), abstracted over the collaborators: the whole tick (gather,
plan computation and plan execution) runs inside try/catch, so its outcome is
either success or an error carrying error.message. An error is converted to a
single warn entry with message "Synchronization loop failed:" carrying the
error message, and the body returns true in both cases (line 285), so the
loop driver (lines 157-165) proceeds to the next tick. -/
def syncLoopTick (body : Except String Unit) : List LogEntry × Bool :=
  match body with
  | Except.ok _ => ([], true)
  | Except.error message =>
    ([{ level := LogLevel.warn, message := "Synchronization loop failed:",
        errorMessage := some message }], true)

/-- The loop driver of agent.ts lines 157-165 specialized to the steady-state
tick, run over a finite stream of tick outcomes: it keeps iterating while the
body returns true and stops when it returns false, collecting each executed
tick's log entries. -/
def runSyncLoop : List (Except String Unit) → List (List LogEntry)
  | [] => []
  | body :: rest =>
    let step := syncLoopTick body
    if step.2 then step.1 :: runSyncLoop rest
    else [step.1]

/-- C6: every tick body outcome, success or error, lets the loop proceed
(the tick returns true, and a run over any finite stream of tick outcomes
executes every tick), and an error outcome is converted to a warn log entry
carrying the error message. -/
theorem tick_errors_isolated (bodies : List (Except String Unit)) (e : String) :
    (runSyncLoop bodies).length = bodies.length ∧
    (∀ body : Except String Unit, (syncLoopTick body).2 = true) ∧
    syncLoopTick (Except.error e) =
      ([{ level := LogLevel.warn, message := "Synchronization loop failed:",
          errorMessage := some e }], true) := by
  refine ⟨?_, ?_, rfl⟩
  · induction bodies with
    | nil => rfl
    | cons b bs ih => cases b <;> simp [runSyncLoop, syncLoopTick, ih]
  · intro body
    cases body <;> rfl

/-- One queued deploy task body (agent.ts lines 409-427): it logs an info
entry, calls indexer.ensure WITHOUT awaiting it (the source comments that it
deliberately does not wait, because indexing can block), then sleeps. No
try/catch surrounds anything in the body, and the unawaited ensure outcome
cannot influence the task's own logs or outcome. -/
def deployTaskRun (_ensureOutcome : Except String Unit) :
    List LogEntry × Except String Unit :=
  ([{ level := LogLevel.info, message := "Begin indexing subgraph deployment",
      errorMessage := none }], Except.ok ())

/-- One queued remove task body (agent.ts lines 430-434): it awaits
indexer.remove with no try/catch around it and logs nothing, so the task's
log output is empty and its outcome is exactly the remove call's outcome. -/
def removeTaskRun (removeOutcome : Except String Unit) :
    List LogEntry × Except String Unit :=
  ([], removeOutcome)

/-- A task submitted to the tick's bounded-concurrency queue, described by
the outcome of the external call it performs. -/
inductive QueuedTask where
  | deploy (ensureOutcome : Except String Unit)
  | remove (removeOutcome : Except String Unit)

/-- Runs one queued task to completion. -/
def runQueuedTask : QueuedTask → List LogEntry × Except String Unit
  | QueuedTask.deploy outcome => deployTaskRun outcome
  | QueuedTask.remove outcome => removeTaskRun outcome

/-- The tick's final `await queue.onIdle()` (agent.ts line 436): every
submitted task runs to completion independently of its siblings, and onIdle
resolves once the queue has drained regardless of individual task outcomes
(a task rejection surfaces only on the promise returned by queue.add, which
Agent.resolve never awaits), so the tick-level handler observes success. -/
def queueDrain (tasks : List QueuedTask) :
    List (List LogEntry × Except String Unit) × Except String Unit :=
  (tasks.map runQueuedTask, Except.ok ())

/-- C7 counterexample: a remove task whose remove call fails with "boom"
neither swallows nor logs the failure: the task's outcome is still the error
and its log output is empty, so the error is not caught inside the task
itself and logged there. -/
theorem remove_task_error_not_caught :
    ¬ ((removeTaskRun (Except.error "boom")).2 = Except.ok () ∧
      ∃ entry ∈ (removeTaskRun (Except.error "boom")).1,
        entry.errorMessage = some "boom") := by
  intro h
  simpa [removeTaskRun] using h.1

/-- C7 amended: an error raised inside a queued deploy/remove task is not
caught or logged inside the task body itself, but it still does not
propagate to the tick-level error handler, affect sibling tasks, or prevent
the tick's drain from completing: the drain resolves successfully and runs
every submitted task, a failed remove keeps its error confined to its own
task result, and a failed (unawaited) ensure does not even fail its task. -/
theorem task_errors_do_not_propagate (tasks : List QueuedTask) (e : String) :
    (queueDrain tasks).2 = Except.ok () ∧
    (queueDrain tasks).1.length = tasks.length ∧
    runQueuedTask (QueuedTask.remove (Except.error e)) = ([], Except.error e) ∧
    (runQueuedTask (QueuedTask.deploy (Except.error e))).2 = Except.ok () := by
  exact ⟨rfl, by simp [queueDrain], rfl, rfl⟩

/-- A block position on a chain, as reported by the indexing status. -/
structure ChainBlock where
  number : Nat
deriving DecidableEq, Repr

/-- Per-chain sync progress reported by the indexing status. -/
structure ChainStatus where
  latestBlock : ChainBlock
  chainHeadBlock : ChainBlock
deriving DecidableEq, Repr

/-- The indexing status indexer.indexingStatus returns for a deployment:
health string, synced flag, the fatal error message (read only on the
unhealthy path) and per-chain progress. -/
structure IndexingStatus where
  health : String
  synced : Bool
  fatalErrorMessage : String
  chains : List ChainStatus
deriving DecidableEq, Repr

/-- Result of one poll of the startup sync-wait loop body (agent.ts lines
204-237): an unhealthy status throws the deliberate fatal error of lines
213-217; a synced status returns false, stopping the polling loop; a healthy
unsynced status with at least one chain logs sync progress and returns true
to poll again, where the progress log is identified by the head chain's
latest and chain-head block numbers (the source interpolates them, together
with a floating-point percentage formatted by toFixed(2) that is not
modelled, into the info line at lines 227-233); a healthy unsynced status
with an empty chains list throws a TypeError at lines 224-226, because the
non-null assertion in status.chains[0]! is erased at runtime and the code
reads latestBlock of undefined. -/
inductive SyncPoll where
  | fatal (message : String)
  | ready
  | keepWaiting (latestBlock chainHeadBlock : Nat)
  | typeError
deriving DecidableEq, Repr

/-- The startup sync-wait loop body (agent.ts lines 204-237). The thrown
fatal message interpolates the deployment (rendered as its IPFS hash) and the
status's fatal-error message, as at lines 214-216. -/
def syncWaitStep (deployment : SubgraphDeploymentID) (status : IndexingStatus) :
    SyncPoll :=
  if status.health ≠ "healthy" then
    SyncPoll.fatal ("Failed to index network subgraph deployment \x27"
      ++ deployment.ipfsHash ++ "\x27: " ++ status.fatalErrorMessage)
  else if status.synced then SyncPoll.ready
  else
    match status.chains with
    | [] => SyncPoll.typeError
    | chain :: _ =>
      SyncPoll.keepWaiting chain.latestBlock.number chain.chainHeadBlock.number

/-- Outcome of the whole startup sync-wait phase over a finite stream of
observed statuses: the phase either throws the deliberate fatal error,
crashes with the uncaught TypeError of the empty-chains path (the sync-wait
loop at lines 204-237 has no try/catch, so the exception propagates out of
Agent.start), reaches Ready, or is still waiting when the observed stream
ends. -/
inductive SyncOutcome where
  | fatal (message : String)
  | ready
  | crashed
  | stillWaiting
deriving DecidableEq, Repr

/-- The sync-wait phase as driven by the loop helper (agent.ts lines 157-165
applied at line 204): poll by poll until the body throws or returns false. -/
def syncWaitLoop (deployment : SubgraphDeploymentID) :
    List IndexingStatus → SyncOutcome
  | [] => SyncOutcome.stillWaiting
  | status :: rest =>
    match syncWaitStep deployment status with
    | SyncPoll.fatal message => SyncOutcome.fatal message
    | SyncPoll.ready => SyncOutcome.ready
    | SyncPoll.keepWaiting _ _ => syncWaitLoop deployment rest
    | SyncPoll.typeError => SyncOutcome.crashed

/-- C8 (amended): during the startup sync-wait phase, an unhealthy status
raises a fatal error whose message ends with the status's fatal-error message
and the phase never reaches Ready; a healthy fully-synced status reaches
Ready immediately (no further polling); a healthy unsynced status reporting
at least one chain logs sync progress (the head chain's latest and chain-head
block numbers) and polls again on the remaining stream; a healthy unsynced
status with an empty chains list crashes the startup phase with an uncaught
TypeError and never reaches Ready. -/
theorem sync_wait_behavior (deployment : SubgraphDeploymentID)
    (status : IndexingStatus) (rest : List IndexingStatus) :
    (status.health ≠ "healthy" →
      (∃ p : String, syncWaitLoop deployment (status :: rest)
        = SyncOutcome.fatal (p ++ status.fatalErrorMessage)) ∧
      syncWaitLoop deployment (status :: rest) ≠ SyncOutcome.ready) ∧
    (status.health = "healthy" → status.synced = true →
      syncWaitLoop deployment (status :: rest) = SyncOutcome.ready) ∧
    (status.health = "healthy" → status.synced = false →
      ∀ chain chs, status.chains = chain :: chs →
        syncWaitStep deployment status
          = SyncPoll.keepWaiting chain.latestBlock.number
              chain.chainHeadBlock.number ∧
        syncWaitLoop deployment (status :: rest)
          = syncWaitLoop deployment rest) ∧
    (status.health = "healthy" → status.synced = false → status.chains = [] →
      syncWaitStep deployment status = SyncPoll.typeError ∧
      syncWaitLoop deployment (status :: rest) = SyncOutcome.crashed ∧
      syncWaitLoop deployment (status :: rest) ≠ SyncOutcome.ready) := by
  refine ⟨?_, ?_, ?_, ?_⟩
  · intro hunhealthy
    have hstep : syncWaitStep deployment status
        = SyncPoll.fatal ("Failed to index network subgraph deployment \x27"
          ++ deployment.ipfsHash ++ "\x27: " ++ status.fatalErrorMessage) := by
      rw [syncWaitStep, if_pos hunhealthy]
    constructor
    · refine ⟨"Failed to index network subgraph deployment \x27"
        ++ deployment.ipfsHash ++ "\x27: ", ?_⟩
      show (match syncWaitStep deployment status with
        | SyncPoll.fatal message => SyncOutcome.fatal message
        | SyncPoll.ready => SyncOutcome.ready
        | SyncPoll.keepWaiting _ _ => syncWaitLoop deployment rest
        | SyncPoll.typeError => SyncOutcome.crashed) = _
      rw [hstep]
    · show (match syncWaitStep deployment status with
        | SyncPoll.fatal message => SyncOutcome.fatal message
        | SyncPoll.ready => SyncOutcome.ready
        | SyncPoll.keepWaiting _ _ => syncWaitLoop deployment rest
        | SyncPoll.typeError => SyncOutcome.crashed) ≠ _
      rw [hstep]
      simp
  · intro hhealthy hsynced
    have hstep : syncWaitStep deployment status = SyncPoll.ready := by
      rw [syncWaitStep, if_neg (by simp [hhealthy]), if_pos hsynced]
    show (match syncWaitStep deployment status with
      | SyncPoll.fatal message => SyncOutcome.fatal message
      | SyncPoll.ready => SyncOutcome.ready
      | SyncPoll.keepWaiting _ _ => syncWaitLoop deployment rest
      | SyncPoll.typeError => SyncOutcome.crashed) = _
    rw [hstep]
  · intro hhealthy hsynced chain chs hchains
    have hstep : syncWaitStep deployment status
        = SyncPoll.keepWaiting chain.latestBlock.number
            chain.chainHeadBlock.number := by
      rw [syncWaitStep, if_neg (by simp [hhealthy]), if_neg (by simp [hsynced]),
        hchains]
    refine ⟨hstep, ?_⟩
    show (match syncWaitStep deployment status with
      | SyncPoll.fatal message => SyncOutcome.fatal message
      | SyncPoll.ready => SyncOutcome.ready
      | SyncPoll.keepWaiting _ _ => syncWaitLoop deployment rest
      | SyncPoll.typeError => SyncOutcome.crashed) = _
    rw [hstep]
  · intro hhealthy hsynced hchains
    have hstep : syncWaitStep deployment status = SyncPoll.typeError := by
      rw [syncWaitStep, if_neg (by simp [hhealthy]), if_neg (by simp [hsynced]),
        hchains]
    have hloop : syncWaitLoop deployment (status :: rest)
        = SyncOutcome.crashed := by
      show (match syncWaitStep deployment status with
        | SyncPoll.fatal message => SyncOutcome.fatal message
        | SyncPoll.ready => SyncOutcome.ready
        | SyncPoll.keepWaiting _ _ => syncWaitLoop deployment rest
        | SyncPoll.typeError => SyncOutcome.crashed) = _
      rw [hstep]
    refine ⟨hstep, hloop, ?_⟩
    rw [hloop]
    simp

/-- C8 counterexample to the original claim: at a healthy, unsynced status
whose chains list is empty, the sync-wait body neither logs sync progress nor
polls again; it crashes the startup phase with the uncaught TypeError of
agent.ts lines 224-226. -/
theorem sync_wait_empty_chains_crashes :
    syncWaitStep ⟨0, "QmSelf"⟩ ⟨"healthy", false, "", []⟩ = SyncPoll.typeError ∧
    syncWaitLoop ⟨0, "QmSelf"⟩ [⟨"healthy", false, "", []⟩]
      = SyncOutcome.crashed ∧
    SyncOutcome.crashed ≠ SyncOutcome.ready := by
  decide

/-- C8 witness: Scenario E (an unhealthy status with fatal error "X" fails
fatally with a message ending in "X" and never reaches Ready) together with
the progress-logging branch (a healthy unsynced status with one chain at
block 50 of 100 logs those block numbers and polls again). -/
theorem sync_wait_behavior_witness :
    ((∃ p : String, syncWaitLoop ⟨0, "QmSelf"⟩ [⟨"failed", false, "X", []⟩]
      = SyncOutcome.fatal (p ++ "X")) ∧
    syncWaitLoop ⟨0, "QmSelf"⟩ [⟨"failed", false, "X", []⟩]
      ≠ SyncOutcome.ready) ∧
    syncWaitStep ⟨0, "QmSelf"⟩ ⟨"healthy", false, "", [⟨⟨50⟩, ⟨100⟩⟩]⟩
      = SyncPoll.keepWaiting 50 100 :=
  ⟨(sync_wait_behavior ⟨0, "QmSelf"⟩ ⟨"failed", false, "X", []⟩ []).1 (by decide),
    ((sync_wait_behavior ⟨0, "QmSelf"⟩ ⟨"healthy", false, "", [⟨⟨50⟩, ⟨100⟩⟩]⟩
      []).2.2.1 rfl rfl ⟨⟨50⟩, ⟨100⟩⟩ [] rfl).1⟩

/-- A side-effecting step of one tick's plan execution, identified by the
domain key it acts on. -/
inductive AgentAction where
  | settleAllocation (allocationId : String)
  | allocateTo (deploymentBytes32 : Nat)
  | enqueueDeploy (deploymentBytes32 : Nat)
  | enqueueRemove (deploymentBytes32 : Nat)
  | drainQueue
deriving DecidableEq, Repr

/-- Execution phase of an action within a tick: settlements first, then
allocations, then queue submissions, then the final drain. -/
def actionPhase : AgentAction → Nat
  | AgentAction.settleAllocation _ => 0
  | AgentAction.allocateTo _ => 1
  | AgentAction.enqueueDeploy _ => 2
  | AgentAction.enqueueRemove _ => 2
  | AgentAction.drainQueue => 3

/-- The ordered trace of side effects Agent.resolve performs after computing
the plan (agent.ts lines 394-436): each allocation in toSettle is settled by
an awaited sequential call (lines 395-397), then each deployment in
toAllocate is allocated by an awaited sequential call (lines 401-403), then
every toDeploy and every toRemove entry is submitted to the concurrency-10
queue (lines 406-434), and the queue is drained before the tick ends
(line 436). -/
def resolveSideEffects (epoch maxEpochsPerAllocation : Int)
    (networkSubgraphDeployment : SubgraphDeploymentID)
    (networkDeployments indexerDeployments : List SubgraphDeploymentID)
    (allocations : List Allocation) : List AgentAction :=
  let plan := resolvePlan epoch maxEpochsPerAllocation networkSubgraphDeployment
    networkDeployments indexerDeployments allocations
  plan.toSettle.map (fun allocation => AgentAction.settleAllocation allocation.id)
    ++ plan.toAllocate.map (fun deployment =>
        AgentAction.allocateTo deployment.bytes32)
    ++ plan.toDeploy.map (fun deployment =>
        AgentAction.enqueueDeploy deployment.bytes32)
    ++ plan.toRemove.map (fun deployment =>
        AgentAction.enqueueRemove deployment.bytes32)
    ++ [AgentAction.drainQueue]

/-- Appending two phase lists that respect a common bound keeps the phase
sequence monotone. -/
theorem pairwise_le_append_of_bounds {l₁ l₂ : List Nat} (c : Nat)
    (h₁ : ∀ x ∈ l₁, x ≤ c) (h₂ : ∀ y ∈ l₂, c ≤ y)
    (p₁ : l₁.Pairwise fun x y => x ≤ y) (p₂ : l₂.Pairwise fun x y => x ≤ y) :
    (l₁ ++ l₂).Pairwise fun x y => x ≤ y :=
  List.pairwise_append.mpr
    ⟨p₁, p₂, fun a ha b hb => Nat.le_trans (h₁ a ha) (h₂ b hb)⟩

/-- A constant phase list is monotone. -/
theorem pairwise_le_replicate (n c : Nat) :
    (List.replicate n c).Pairwise fun x y => x ≤ y :=
  List.pairwise_of_forall_mem_list fun a ha b hb => by
    rw [List.eq_of_mem_replicate ha, List.eq_of_mem_replicate hb]

/-- The phase sequence 0⋯0 1⋯1 2⋯2 2⋯2 3 of a tick trace is monotone. -/
theorem pairwise_le_phases (a b c d : Nat) :
    (List.replicate a 0 ++ (List.replicate b 1 ++ (List.replicate c 2
      ++ (List.replicate d 2 ++ [3])))).Pairwise fun x y : Nat => x ≤ y := by
  apply pairwise_le_append_of_bounds 0
  · intro x hx
    rw [List.eq_of_mem_replicate hx]
  · intro y hy
    exact Nat.zero_le y
  · exact pairwise_le_replicate _ _
  · apply pairwise_le_append_of_bounds 1
    · intro x hx
      rw [List.eq_of_mem_replicate hx]
    · intro y hy
      rcases List.mem_append.mp hy with h | h
      · rw [List.eq_of_mem_replicate h]
        omega
      rcases List.mem_append.mp h with h2 | h2
      · rw [List.eq_of_mem_replicate h2]
        omega
      · rw [List.mem_singleton.mp h2]
        omega
    · exact pairwise_le_replicate _ _
    · apply pairwise_le_append_of_bounds 2
      · intro x hx
        rw [List.eq_of_mem_replicate hx]
      · intro y hy
        rcases List.mem_append.mp hy with h | h
        · rw [List.eq_of_mem_replicate h]
        · rw [List.mem_singleton.mp h]
          omega
      · exact pairwise_le_replicate _ _
      · apply pairwise_le_append_of_bounds 2
        · intro x hx
          rw [List.eq_of_mem_replicate hx]
        · intro y hy
          rw [List.mem_singleton.mp hy]
          omega
        · exact pairwise_le_replicate _ _
        · exact List.pairwise_singleton _ _

/-- C9: in the side-effect trace of a tick the phases are monotone (every
settlement precedes every allocation, which precedes every queue submission,
which precedes the drain), the drain is the last step, and every plan entry
is acted on. -/
theorem tick_side_effect_order (epoch maxEpochsPerAllocation : Int)
    (networkSubgraphDeployment : SubgraphDeploymentID)
    (networkDeployments indexerDeployments : List SubgraphDeploymentID)
    (allocations : List Allocation) :
    (resolveSideEffects epoch maxEpochsPerAllocation networkSubgraphDeployment
        networkDeployments indexerDeployments allocations).Pairwise
      (fun a b => actionPhase a ≤ actionPhase b) ∧
    (resolveSideEffects epoch maxEpochsPerAllocation networkSubgraphDeployment
        networkDeployments indexerDeployments allocations).getLast?
      = some AgentAction.drainQueue ∧
    (∀ a ∈ (resolvePlan epoch maxEpochsPerAllocation networkSubgraphDeployment
        networkDeployments indexerDeployments allocations).toSettle,
      AgentAction.settleAllocation a.id ∈ resolveSideEffects epoch
        maxEpochsPerAllocation networkSubgraphDeployment networkDeployments
        indexerDeployments allocations) ∧
    (∀ d ∈ (resolvePlan epoch maxEpochsPerAllocation networkSubgraphDeployment
        networkDeployments indexerDeployments allocations).toAllocate,
      AgentAction.allocateTo d.bytes32 ∈ resolveSideEffects epoch
        maxEpochsPerAllocation networkSubgraphDeployment networkDeployments
        indexerDeployments allocations) ∧
    (∀ d ∈ (resolvePlan epoch maxEpochsPerAllocation networkSubgraphDeployment
        networkDeployments indexerDeployments allocations).toDeploy,
      AgentAction.enqueueDeploy d.bytes32 ∈ resolveSideEffects epoch
        maxEpochsPerAllocation networkSubgraphDeployment networkDeployments
        indexerDeployments allocations) ∧
    (∀ d ∈ (resolvePlan epoch maxEpochsPerAllocation networkSubgraphDeployment
        networkDeployments indexerDeployments allocations).toRemove,
      AgentAction.enqueueRemove d.bytes32 ∈ resolveSideEffects epoch
        maxEpochsPerAllocation networkSubgraphDeployment networkDeployments
        indexerDeployments allocations) := by
  refine ⟨?_, ?_, ?_, ?_, ?_, ?_⟩
  · have hmap : (resolveSideEffects epoch maxEpochsPerAllocation
        networkSubgraphDeployment networkDeployments indexerDeployments
        allocations).map actionPhase
        = List.replicate (resolvePlan epoch maxEpochsPerAllocation
            networkSubgraphDeployment networkDeployments indexerDeployments
            allocations).toSettle.length 0
          ++ (List.replicate (resolvePlan epoch maxEpochsPerAllocation
              networkSubgraphDeployment networkDeployments indexerDeployments
              allocations).toAllocate.length 1
          ++ (List.replicate (resolvePlan epoch maxEpochsPerAllocation
              networkSubgraphDeployment networkDeployments indexerDeployments
              allocations).toDeploy.length 2
          ++ (List.replicate (resolvePlan epoch maxEpochsPerAllocation
              networkSubgraphDeployment networkDeployments indexerDeployments
              allocations).toRemove.length 2 ++ [3]))) := by
      rw [resolveSideEffects]
      simp [List.map_append, List.map_map, Function.comp_def, actionPhase,
        List.map_const']
    exact List.pairwise_map.mp (by rw [hmap]; exact pairwise_le_phases _ _ _ _)
  · rw [resolveSideEffects]
    simp
  · intro a ha
    rw [resolveSideEffects]
    simp only [List.mem_append, List.mem_map]
    exact Or.inl (Or.inl (Or.inl (Or.inl ⟨a, ha, rfl⟩)))
  · intro d hd
    rw [resolveSideEffects]
    simp only [List.mem_append, List.mem_map]
    exact Or.inl (Or.inl (Or.inl (Or.inr ⟨d, hd, rfl⟩)))
  · intro d hd
    rw [resolveSideEffects]
    simp only [List.mem_append, List.mem_map]
    exact Or.inl (Or.inl (Or.inr ⟨d, hd, rfl⟩))
  · intro d hd
    rw [resolveSideEffects]
    simp only [List.mem_append, List.mem_map]
    exact Or.inl (Or.inr ⟨d, hd, rfl⟩)

/-- C9 witness: on a concrete tick the settlement of allocation 0xalloc1
appears in the trace and the drain is the final step. -/
theorem tick_side_effect_order_witness :
    AgentAction.settleAllocation "0xalloc1" ∈ resolveSideEffects 100 28
      ⟨0, "QmSelf"⟩ [⟨1, "QmOne"⟩] []
      [⟨"0xalloc1", ⟨⟨1, "QmOne"⟩, 0, 0⟩, 50⟩] ∧
    (resolveSideEffects 100 28 ⟨0, "QmSelf"⟩ [⟨1, "QmOne"⟩] []
      [⟨"0xalloc1", ⟨⟨1, "QmOne"⟩, 0, 0⟩, 50⟩]).getLast?
      = some AgentAction.drainQueue := by
  have h := tick_side_effect_order 100 28 ⟨0, "QmSelf"⟩ [⟨1, "QmOne"⟩] []
    [⟨"0xalloc1", ⟨⟨1, "QmOne"⟩, 0, 0⟩, 50⟩]
  exact ⟨h.2.2.1 ⟨"0xalloc1", ⟨⟨1, "QmOne"⟩, 0, 0⟩, 50⟩ (by decide), h.2.1⟩

end Indexer
